import Mathlib

/-!
Shallow embedding of the icon-resizer pipeline of
`src/app/page.tsx` (`IconResizerDashboard`): the size-text parser, the
aspect-fit scale computation, output-filename derivation, the
`processImages` run loop with progress accounting and object-URL
lifecycle, and the `clearAll` operation.

Object URLs (`URL.createObjectURL` / `URL.revokeObjectURL`) are modelled
by natural-number handles drawn from a counter; the set of live
(unrevoked) handles is threaded through the state.  Real-number
quantities (scale factors, progress percentages) are modelled in ℚ.
-/

/-- Numeric value of a hexadecimal digit character, if it is one. -/
def hexDigitVal (c : Char) : Option Nat :=
  if c.isDigit then some (c.toNat - 48)
  else if 'a' ≤ c ∧ c ≤ 'f' then some (c.toNat - 87)
  else if 'A' ≤ c ∧ c ≤ 'F' then some (c.toNat - 55)
  else none

/-- Longest prefix of digits valid in the given radix, as in JS
`parseInt`: stops at the first invalid character, `none` when no digit
was consumed. -/
def parseDigits (radix : Nat) : List Char → Nat → Bool → Option Nat
  | [], acc, seen => if seen then some acc else none
  | c :: rest, acc, seen =>
      match hexDigitVal c with
      | some d =>
          if d < radix then parseDigits radix rest (acc * radix + d) true
          else if seen then some acc else none
      | none => if seen then some acc else none

/-- Whitespace trim (`String.prototype.trim`) over a character list:
drop leading and trailing whitespace. -/
def trimChars (cs : List Char) : List Char :=
  ((cs.dropWhile Char.isWhitespace).reverse.dropWhile Char.isWhitespace).reverse

/-- JS `"...".split(",")` over character lists: split at every comma,
keeping empty groups; the empty string yields one empty group. -/
def splitOnComma : List Char → List (List Char)
  | [] => [[]]
  | c :: rest =>
      if c = ',' then [] :: splitOnComma rest
      else
        match splitOnComma rest with
        | g :: gs => (c :: g) :: gs
        | [] => [[c]]

/-- JS `Number.parseInt` with an undefined radix: trim, optional sign,
optional `0x`/`0X` hex prefix, then the longest digit prefix; `none`
models `NaN`. -/
def jsParseInt (cs : List Char) : Option Int :=
  let t := trimChars cs
  let signed : Int × List Char :=
    match t with
    | '-' :: rest => (-1, rest)
    | '+' :: rest => (1, rest)
    | _ => (1, t)
  let based : Nat × List Char :=
    match signed.2 with
    | '0' :: 'x' :: rest => (16, rest)
    | '0' :: 'X' :: rest => (16, rest)
    | _ => (10, signed.2)
  match parseDigits based.1 based.2 0 false with
  | some n => some (signed.1 * n)
  | none => none

/-- Size-text parsing of `processImages`:
`sizes.split(",").map(s => Number.parseInt(s.trim())).filter(s => s > 0)`.
`NaN` entries (`none`) fail the `> 0` filter exactly as in JS. -/
def parseSizes (sizes : String) : List Int :=
  (((splitOnComma sizes.toList).map
      (fun s => jsParseInt (trimChars s))).filterMap id).filter
    (fun s => decide (0 < s))

/-- Base-name derivation `file.name.replace(/\.[^/.]+$/, "")`: drop a
final dot followed by one or more characters none of which is a dot or
a slash; otherwise the name is unchanged. -/
def stripExt (name : String) : String :=
  let rcs := name.toList.reverse
  let ext := rcs.takeWhile (fun c => c != '.' && c != '/')
  match rcs.drop ext.length with
  | '.' :: before =>
      if ext.length = 0 then name else String.mk before.reverse
  | _ => name

/-- Output filename `` `${baseName}_${size}x${size}.png` ``. -/
def outputFilename (name : String) (size : Int) : String :=
  stripExt name ++ "_" ++ toString size ++ "x" ++ toString size ++ ".png"

/-- Per-pair rasterization geometry computed by the inner loop of
`processImages` (canvas dimensions, aspect-fit scale, scaled extent,
centering offsets). -/
structure RenderSpec where
  canvasW : Int
  canvasH : Int
  scale : ℚ
  scaledWidth : ℚ
  scaledHeight : ℚ
  offsetX : ℚ
  offsetY : ℚ
deriving DecidableEq, Repr

/-- Geometry for one (image, size) pair:
`scale = min(size / img.width, size / img.height)`,
`scaledWidth = img.width * scale`, `scaledHeight = img.height * scale`,
`x = (size - scaledWidth) / 2`, `y = (size - scaledHeight) / 2`. -/
def renderSpec (w h : ℚ) (size : Int) : RenderSpec :=
  let s : ℚ := (size : ℚ)
  let scale := min (s / w) (s / h)
  let scaledWidth := w * scale
  let scaledHeight := h * scale
  { canvasW := size
    canvasH := size
    scale := scale
    scaledWidth := scaledWidth
    scaledHeight := scaledHeight
    offsetX := (s - scaledWidth) / 2
    offsetY := (s - scaledHeight) / 2 }

/-- Progress percentage `(completedOperations / totalOperations) * 100`. -/
def progressOf (completed total : Nat) : ℚ :=
  ((completed : ℚ) / (total : ℚ)) * 100

/-- A selected source file: its name, intrinsic dimensions, and whether
the `Image` decode (`img.onload` vs `img.onerror`) succeeds. -/
structure SrcFile where
  name : String
  width : ℚ
  height : ℚ
  decodes : Bool
deriving DecidableEq, Repr

/-- The `ProcessedIcon` record pushed by the inner loop; `url` is the
object-URL handle of the encoded blob, `render` the blob's rasterization
geometry. -/
structure ProcessedIcon where
  id : String
  originalName : String
  size : Int
  render : RenderSpec
  url : Nat
  filename : String
deriving DecidableEq, Repr

/-- Page-level state of `IconResizerDashboard` relevant to processing:
selected files, the size text, the surfaced results, the processing flag
and progress value, plus the object-URL allocator (`nextUrl` counter,
`live` = created-and-unrevoked handles) and the trace of
`completedOperations` values observed at each progress update. -/
structure DashState where
  files : List SrcFile
  sizes : String
  processedIcons : List ProcessedIcon
  isProcessing : Bool
  progress : ℚ
  nextUrl : Nat
  live : List Nat
  completedLog : List Nat
deriving DecidableEq, Repr

/-- Allocate a fresh object URL (`URL.createObjectURL`). -/
def allocUrl (st : DashState) : Nat × DashState :=
  (st.nextUrl,
    { st with nextUrl := st.nextUrl + 1, live := st.live ++ [st.nextUrl] })

/-- Release an object URL (`URL.revokeObjectURL`). -/
def revokeUrl (u : Nat) (st : DashState) : DashState :=
  { st with live := st.live.filter (fun v => v != u) }

/-- Loop-carried data of a `processImages` run: the page state, the
`newProcessedIcons` accumulator, and `completedOperations`. -/
structure RunAcc where
  st : DashState
  icons : List ProcessedIcon
  completed : Nat
deriving DecidableEq, Repr

/-- Outcome signalled by `processImages` (via toast). -/
inductive RunOutcome where
  | noFiles
  | invalidSizes
  | decodeFailed
  | success
deriving DecidableEq, Repr

/-- Inner loop of `processImages`: for each size, rasterize, encode,
create a blob URL, push the `ProcessedIcon`, bump
`completedOperations`, and set the progress percentage. -/
def processSizes (f : SrcFile) (total : Nat) :
    List Int → RunAcc → RunAcc
  | [], r => r
  | size :: rest, r =>
      let spec := renderSpec f.width f.height size
      let alloc := allocUrl r.st
      let icon : ProcessedIcon :=
        { id := f.name ++ "-" ++ toString size
          originalName := f.name
          size := size
          render := spec
          url := alloc.1
          filename := outputFilename f.name size }
      let completed := r.completed + 1
      let st :=
        { alloc.2 with
            progress := progressOf completed total
            completedLog := alloc.2.completedLog ++ [completed] }
      processSizes f total rest
        { st := st, icons := r.icons ++ [icon], completed := completed }

/-- Outer loop of `processImages`: per file, create an object URL for
the file, await decode (failure rejects the whole run and the file's
URL is not revoked), run the inner loop over all sizes, then revoke the
file's URL.  The `Bool` is `false` when some decode failed. -/
def processFiles (sizeArray : List Int) (total : Nat) :
    List SrcFile → RunAcc → RunAcc × Bool
  | [], r => (r, true)
  | f :: rest, r =>
      let alloc := allocUrl r.st
      if f.decodes then
        let r1 := processSizes f total sizeArray { r with st := alloc.2 }
        processFiles sizeArray total rest { r1 with st := revokeUrl alloc.1 r1.st }
      else
        ({ r with st := alloc.2 }, false)

/-- The `processImages` handler: validation (no files / no valid sizes),
then the run; on success the accumulated icons replace
`processedIcons` wholesale, on decode failure the `catch` surfaces
nothing and the `finally` clears `isProcessing`. -/
def processImages (st : DashState) : DashState × RunOutcome :=
  if st.files.length = 0 then (st, RunOutcome.noFiles)
  else
    let sizeArray := parseSizes st.sizes
    if sizeArray.length = 0 then (st, RunOutcome.invalidSizes)
    else
      let st1 := { st with isProcessing := true, progress := 0 }
      let total := st.files.length * sizeArray.length
      let out := processFiles sizeArray total st.files
        { st := st1, icons := [], completed := 0 }
      if out.2 then
        ({ out.1.st with
            processedIcons := out.1.icons, isProcessing := false },
          RunOutcome.success)
      else
        ({ out.1.st with isProcessing := false }, RunOutcome.decodeFailed)

/-- The `clearAll` handler: revoke every result's blob URL, empty the
results and the file list, reset progress. -/
def clearAll (st : DashState) : DashState :=
  let st1 := st.processedIcons.foldl (fun s icon => revokeUrl icon.url s) st
  { st1 with processedIcons := [], files := [], progress := 0 }

/-! ### Helper lemmas -/

lemma range1_append (s m n : Nat) :
    List.range' s m ++ List.range' (s + m) n = List.range' s (m + n) := by
  induction m generalizing s with
  | zero => simp
  | succ m ih =>
      simp only [List.range'_succ, List.cons_append, Nat.succ_add]
      rw [show s + (m + 1) = (s + 1) + m by omega, ih]

lemma processSizes_misc (f : SrcFile) (total : Nat) (l : List Int) (r : RunAcc) :
    (processSizes f total l r).st.processedIcons = r.st.processedIcons ∧
    (processSizes f total l r).st.files = r.st.files ∧
    (processSizes f total l r).st.sizes = r.st.sizes ∧
    (processSizes f total l r).st.isProcessing = r.st.isProcessing := by
  induction l generalizing r with
  | nil => simp [processSizes]
  | cons size rest ih =>
      simp only [processSizes, allocUrl]
      exact ih _

lemma processSizes_icons_length (f : SrcFile) (total : Nat) (l : List Int)
    (r : RunAcc) :
    (processSizes f total l r).icons.length = r.icons.length + l.length := by
  induction l generalizing r with
  | nil => simp [processSizes]
  | cons size rest ih =>
      simp only [processSizes, allocUrl]
      rw [ih]
      simp
      omega

lemma processSizes_completed (f : SrcFile) (total : Nat) (l : List Int)
    (r : RunAcc) :
    (processSizes f total l r).completed = r.completed + l.length := by
  induction l generalizing r with
  | nil => simp [processSizes]
  | cons size rest ih =>
      simp only [processSizes, allocUrl]
      rw [ih]
      simp
      omega

lemma processSizes_log (f : SrcFile) (total : Nat) (l : List Int) (r : RunAcc) :
    (processSizes f total l r).st.completedLog
      = r.st.completedLog ++ List.range' (r.completed + 1) l.length := by
  induction l generalizing r with
  | nil => simp [processSizes]
  | cons size rest ih =>
      simp only [processSizes, allocUrl]
      rw [ih]
      simp only [List.range'_succ]
      rw [List.append_assoc]
      simp [List.length_cons, List.range'_succ]

lemma processSizes_icons_mem (f : SrcFile) (total : Nat) (l : List Int)
    (r : RunAcc) (a : ProcessedIcon)
    (ha : a ∈ (processSizes f total l r).icons) :
    a ∈ r.icons ∨
      (a.originalName = f.name ∧ a.size ∈ l ∧
        a.filename = outputFilename f.name a.size) := by
  induction l generalizing r with
  | nil => exact Or.inl (by simpa [processSizes] using ha)
  | cons size rest ih =>
      simp only [processSizes, allocUrl] at ha
      rcases ih _ ha with h | h
      · rcases List.mem_append.1 h with h | h
        · exact Or.inl h
        · simp only [List.mem_singleton] at h
          subst h
          exact Or.inr ⟨rfl, by simp, rfl⟩
      · exact Or.inr ⟨h.1, List.mem_cons_of_mem _ h.2.1, h.2.2⟩

lemma processFiles_misc (sz : List Int) (total : Nat) (fs : List SrcFile)
    (r : RunAcc) :
    (processFiles sz total fs r).1.st.processedIcons = r.st.processedIcons ∧
    (processFiles sz total fs r).1.st.files = r.st.files ∧
    (processFiles sz total fs r).1.st.sizes = r.st.sizes ∧
    (processFiles sz total fs r).1.st.isProcessing = r.st.isProcessing := by
  induction fs generalizing r with
  | nil => simp [processFiles]
  | cons f rest ih =>
      simp only [processFiles, allocUrl]
      by_cases hd : f.decodes
      · simp only [hd, if_true]
        obtain ⟨h1, h2, h3, h4⟩ := ih
          { processSizes f total sz
              { st :=
                  { r.st with
                      nextUrl := r.st.nextUrl + 1
                      live := r.st.live ++ [r.st.nextUrl] }
                icons := r.icons
                completed := r.completed } with
            st := revokeUrl r.st.nextUrl
              (processSizes f total sz
                { st :=
                    { r.st with
                        nextUrl := r.st.nextUrl + 1
                        live := r.st.live ++ [r.st.nextUrl] }
                  icons := r.icons
                  completed := r.completed }).st }
        obtain ⟨m1, m2, m3, m4⟩ := processSizes_misc f total sz
          { st :=
              { r.st with
                  nextUrl := r.st.nextUrl + 1
                  live := r.st.live ++ [r.st.nextUrl] }
            icons := r.icons
            completed := r.completed }
        refine ⟨?_, ?_, ?_, ?_⟩
        · rw [h1]; simpa [revokeUrl] using m1
        · rw [h2]; simpa [revokeUrl] using m2
        · rw [h3]; simpa [revokeUrl] using m3
        · rw [h4]; simpa [revokeUrl] using m4
      · simp [hd]

@[simp] lemma revokeUrl_processedIcons (u : Nat) (st : DashState) :
    (revokeUrl u st).processedIcons = st.processedIcons := rfl

@[simp] lemma revokeUrl_files (u : Nat) (st : DashState) :
    (revokeUrl u st).files = st.files := rfl

@[simp] lemma revokeUrl_sizes (u : Nat) (st : DashState) :
    (revokeUrl u st).sizes = st.sizes := rfl

@[simp] lemma revokeUrl_isProcessing (u : Nat) (st : DashState) :
    (revokeUrl u st).isProcessing = st.isProcessing := rfl

@[simp] lemma revokeUrl_completedLog (u : Nat) (st : DashState) :
    (revokeUrl u st).completedLog = st.completedLog := rfl

@[simp] lemma revokeUrl_progress (u : Nat) (st : DashState) :
    (revokeUrl u st).progress = st.progress := rfl

lemma processFiles_ok (sz : List Int) (total : Nat) (fs : List SrcFile)
    (r : RunAcc) (h : ∀ f ∈ fs, f.decodes = true) :
    (processFiles sz total fs r).2 = true ∧
    (processFiles sz total fs r).1.icons.length
      = r.icons.length + fs.length * sz.length ∧
    (processFiles sz total fs r).1.completed
      = r.completed + fs.length * sz.length ∧
    (processFiles sz total fs r).1.st.completedLog
      = r.st.completedLog
        ++ List.range' (r.completed + 1) (fs.length * sz.length) := by
  induction fs generalizing r with
  | nil => simp [processFiles]
  | cons f rest ih =>
      have hf : f.decodes = true := h f (List.mem_cons_self f rest)
      have hrest : ∀ g ∈ rest, g.decodes = true :=
        fun g hg => h g (List.mem_cons_of_mem f hg)
      simp only [processFiles, allocUrl, hf, if_true]
      obtain ⟨h1, h2, h3, h4⟩ := ih
        { processSizes f total sz
            { r with
                st :=
                  { r.st with
                      nextUrl := r.st.nextUrl + 1
                      live := r.st.live ++ [r.st.nextUrl] } } with
          st := revokeUrl r.st.nextUrl
            (processSizes f total sz
              { r with
                  st :=
                    { r.st with
                        nextUrl := r.st.nextUrl + 1
                        live := r.st.live ++ [r.st.nextUrl] } }).st }
        hrest
      refine ⟨h1, ?_, ?_, ?_⟩
      · rw [h2]
        simp only [processSizes_icons_length]
        simp [List.length_cons]
        ring
      · rw [h3]
        simp only [processSizes_completed]
        simp [List.length_cons]
        ring
      · rw [h4]
        simp only [revokeUrl_completedLog, processSizes_log,
          processSizes_completed]
        rw [List.append_assoc]
        rw [show r.completed + sz.length + 1 = (r.completed + 1) + sz.length
          by omega]
        rw [range1_append]
        rw [show sz.length + rest.length * sz.length
            = (f :: rest).length * sz.length by simp [List.length_cons]; ring]

lemma processFiles_fail (sz : List Int) (total : Nat) (fs : List SrcFile)
    (r : RunAcc) (h : ∃ f ∈ fs, f.decodes = false) :
    (processFiles sz total fs r).2 = false := by
  induction fs generalizing r with
  | nil => simp at h
  | cons f rest ih =>
      by_cases hd : f.decodes
      · obtain ⟨g, hg, hgd⟩ := h
        rcases List.mem_cons.1 hg with hgf | hgr
        · subst hgf; rw [hd] at hgd; exact absurd hgd (by simp)
        · simp only [processFiles, allocUrl, hd, if_true]
          exact ih _ ⟨g, hgr, hgd⟩
      · simp [processFiles, allocUrl, hd]

lemma processFiles_icons_mem (sz : List Int) (total : Nat)
    (fs : List SrcFile) (r : RunAcc) (a : ProcessedIcon)
    (ha : a ∈ (processFiles sz total fs r).1.icons) :
    a ∈ r.icons ∨
      (a.originalName ∈ fs.map SrcFile.name ∧ a.size ∈ sz ∧
        a.filename = outputFilename a.originalName a.size) := by
  induction fs generalizing r with
  | nil => exact Or.inl (by simpa [processFiles] using ha)
  | cons f rest ih =>
      by_cases hd : f.decodes
      · simp only [processFiles, allocUrl, hd, if_true] at ha
        rcases ih _ ha with h | h
        · simp only at h
          rcases processSizes_icons_mem f total sz _ a h with h2 | h2
          · exact Or.inl h2
          · refine Or.inr ⟨?_, h2.2.1, ?_⟩
            · rw [h2.1]; simp
            · rw [h2.2.2, h2.1]
        · exact Or.inr ⟨by simp [h.1], h.2.1, h.2.2⟩
      · simp only [processFiles, allocUrl, hd, if_false] at ha
        exact Or.inl ha

lemma processFiles_log_prefix (sz : List Int) (total : Nat)
    (fs : List SrcFile) (r : RunAcc) :
    ∃ k ≤ fs.length * sz.length,
      (processFiles sz total fs r).1.st.completedLog
        = r.st.completedLog ++ List.range' (r.completed + 1) k := by
  induction fs generalizing r with
  | nil => exact ⟨0, by simp, by simp [processFiles]⟩
  | cons f rest ih =>
      by_cases hd : f.decodes
      · simp only [processFiles, allocUrl, hd, if_true]
        obtain ⟨k, hk, hlog⟩ := ih
          { processSizes f total sz
              { r with
                  st :=
                    { r.st with
                        nextUrl := r.st.nextUrl + 1
                        live := r.st.live ++ [r.st.nextUrl] } } with
            st := revokeUrl r.st.nextUrl
              (processSizes f total sz
                { r with
                    st :=
                      { r.st with
                          nextUrl := r.st.nextUrl + 1
                          live := r.st.live ++ [r.st.nextUrl] } }).st }
        refine ⟨sz.length + k, ?_, ?_⟩
        · simp only [List.length_cons]
          calc sz.length + k ≤ sz.length + rest.length * sz.length := by omega
            _ = (rest.length + 1) * sz.length := by ring
        · rw [hlog]
          simp only [revokeUrl_completedLog, processSizes_log,
            processSizes_completed]
          rw [List.append_assoc]
          rw [show r.completed + sz.length + 1 = (r.completed + 1) + sz.length
            by omega]
          rw [range1_append]
      · simp only [processFiles, allocUrl, hd, if_false]
        exact ⟨0, by simp, by simp⟩

/-- The loop portion of a started `processImages` run, as one value. -/
def runOut (st : DashState) : RunAcc × Bool :=
  processFiles (parseSizes st.sizes)
    (st.files.length * (parseSizes st.sizes).length) st.files
    { st := { st with isProcessing := true, progress := 0 }
      icons := []
      completed := 0 }

lemma processImages_run (st : DashState) (hfl : st.files.length ≠ 0)
    (hsl : (parseSizes st.sizes).length ≠ 0) :
    processImages st =
      if (runOut st).2 then
        ({ (runOut st).1.st with
            processedIcons := (runOut st).1.icons, isProcessing := false },
          RunOutcome.success)
      else
        ({ (runOut st).1.st with isProcessing := false },
          RunOutcome.decodeFailed) := by
  simp [processImages, runOut, hfl, hsl]

lemma progressOf_mono (T c c' : Nat) (hT : 0 < T) (hcc : c ≤ c') :
    progressOf c T ≤ progressOf c' T := by
  unfold progressOf
  have hTq : (0 : ℚ) < (T : ℚ) := by exact_mod_cast hT
  have hc : (c : ℚ) ≤ (c' : ℚ) := by exact_mod_cast hcc
  have := (div_le_div_iff_of_pos_right hTq).2 hc
  nlinarith

lemma progressOf_le_100 (T c : Nat) (hT : 0 < T) (hc : c ≤ T) :
    progressOf c T ≤ 100 := by
  unfold progressOf
  have hTq : (0 : ℚ) < (T : ℚ) := by exact_mod_cast hT
  have hcq : (c : ℚ) ≤ (T : ℚ) := by exact_mod_cast hc
  have h1 : (c : ℚ) / (T : ℚ) ≤ 1 := (div_le_one hTq).2 hcq
  nlinarith

lemma revokeUrl_live_mono (u x : Nat) (st : DashState)
    (hx : x ∉ st.live) : x ∉ (revokeUrl u st).live := by
  intro hmem
  exact hx (List.mem_of_mem_filter hmem)

lemma revokeUrl_not_mem_self (u : Nat) (st : DashState) :
    u ∉ (revokeUrl u st).live := by
  intro hmem
  have := List.of_mem_filter hmem
  simp at this

lemma foldRevoke_not_mem (L : List ProcessedIcon) (st : DashState) (x : Nat)
    (hx : x ∉ st.live) :
    x ∉ (L.foldl (fun s icon => revokeUrl icon.url s) st).live := by
  induction L generalizing st with
  | nil => simpa using hx
  | cons i rest ih =>
      simp only [List.foldl_cons]
      exact ih _ (revokeUrl_live_mono _ _ _ hx)

lemma foldRevoke_releases (L : List ProcessedIcon) (st : DashState)
    (icon : ProcessedIcon) (h : icon ∈ L) :
    icon.url ∉ (L.foldl (fun s i => revokeUrl i.url s) st).live := by
  induction L generalizing st with
  | nil => simp at h
  | cons i rest ih =>
      simp only [List.foldl_cons]
      rcases List.mem_cons.1 h with hh | hh
      · subst hh
        exact foldRevoke_not_mem _ _ _ (revokeUrl_not_mem_self _ _)
      · exact ih _ hh

/-! ### Claim theorems -/

/-- C2: for every (source image, target size) pair with positive
intrinsic dimensions, the pipeline computes
`scale = min(targetSize/intrinsicWidth, targetSize/intrinsicHeight)`,
`scaledWidth = intrinsicWidth * scale`,
`scaledHeight = intrinsicHeight * scale`,
`offsetX = (targetSize - scaledWidth)/2`,
`offsetY = (targetSize - scaledHeight)/2`; consequently
`scaledWidth ≤ targetSize` and `scaledHeight ≤ targetSize` with at least
one of the two equal to `targetSize`, and the content is centered.  In
particular a 100×50 source at target size 50 yields scale 1/2,
scaledWidth 50, scaledHeight 25, offsetX 0, offsetY 25/2. -/
theorem renderSpec_aspectFit (w h : ℚ) (size : Int)
    (hw : 0 < w) (hh : 0 < h) :
    (renderSpec w h size).scale
      = min ((size : ℚ) / w) ((size : ℚ) / h) ∧
    (renderSpec w h size).scaledWidth = w * (renderSpec w h size).scale ∧
    (renderSpec w h size).scaledHeight = h * (renderSpec w h size).scale ∧
    (renderSpec w h size).offsetX
      = ((size : ℚ) - (renderSpec w h size).scaledWidth) / 2 ∧
    (renderSpec w h size).offsetY
      = ((size : ℚ) - (renderSpec w h size).scaledHeight) / 2 ∧
    (renderSpec w h size).scaledWidth ≤ (size : ℚ) ∧
    (renderSpec w h size).scaledHeight ≤ (size : ℚ) ∧
    ((renderSpec w h size).scaledWidth = (size : ℚ) ∨
      (renderSpec w h size).scaledHeight = (size : ℚ)) ∧
    renderSpec 100 50 50 =
      { canvasW := 50, canvasH := 50, scale := 1/2, scaledWidth := 50,
        scaledHeight := 25, offsetX := 0, offsetY := 25/2 } := by
  have hw0 : w ≠ 0 := ne_of_gt hw
  have hh0 : h ≠ 0 := ne_of_gt hh
  have hsw : w * ((size : ℚ) / w) = (size : ℚ) := by
    field_simp
  have hsh : h * ((size : ℚ) / h) = (size : ℚ) := by
    field_simp
  have hconc : renderSpec 100 50 50 =
      { canvasW := 50, canvasH := 50, scale := 1/2, scaledWidth := 50,
        scaledHeight := 25, offsetX := 0, offsetY := 25/2 } := by
    simp only [renderSpec, RenderSpec.mk.injEq]
    norm_num [min_def]
  refine ⟨rfl, rfl, rfl, rfl, rfl, ?_, ?_, ?_, hconc⟩
  · calc (renderSpec w h size).scaledWidth
        = w * min ((size : ℚ) / w) ((size : ℚ) / h) := rfl
      _ ≤ w * ((size : ℚ) / w) :=
          mul_le_mul_of_nonneg_left (min_le_left _ _) (le_of_lt hw)
      _ = (size : ℚ) := hsw
  · calc (renderSpec w h size).scaledHeight
        = h * min ((size : ℚ) / w) ((size : ℚ) / h) := rfl
      _ ≤ h * ((size : ℚ) / h) :=
          mul_le_mul_of_nonneg_left (min_le_right _ _) (le_of_lt hh)
      _ = (size : ℚ) := hsh
  · rcases min_choice ((size : ℚ) / w) ((size : ℚ) / h) with hmin | hmin
    · left
      show w * min ((size : ℚ) / w) ((size : ℚ) / h) = (size : ℚ)
      rw [hmin, hsw]
    · right
      show h * min ((size : ℚ) / w) ((size : ℚ) / h) = (size : ℚ)
      rw [hmin, hsh]

/-- Witness for C2 at a concrete 100×50 source and target size 50. -/
theorem renderSpec_aspectFit_witness :
    (0 : ℚ) < 100 ∧ (0 : ℚ) < 50 ∧
    ((renderSpec 100 50 50).scaledWidth ≤ (50 : ℚ) ∧
      ((renderSpec 100 50 50).scaledWidth = ((50 : Int) : ℚ) ∨
        (renderSpec 100 50 50).scaledHeight = ((50 : Int) : ℚ))) :=
  ⟨by norm_num, by norm_num,
    by
      have H := renderSpec_aspectFit 100 50 50 (by norm_num) (by norm_num)
      exact ⟨by exact_mod_cast H.2.2.2.2.2.1, H.2.2.2.2.2.2.2.1⟩⟩

/-- C4: the target-size parse splits on commas, trims whitespace, parses
each entry as an integer and discards any value ≤ 0 (including
non-numeric entries): parsing `"16, 32,48 ,128"` yields
`[16, 32, 48, 128]` in order, parsing `"0,-5,abc,64"` yields `[64]`
only, and every parsed size is positive. -/
theorem parseSizes_spec :
    parseSizes ("16, 32,48 ,128") = [16, 32, 48, 128] ∧
    parseSizes ("0,-5,abc,64") = [64] ∧
    ∀ t : String, ∀ x ∈ parseSizes t, 0 < x := by
  refine ⟨by decide, by decide, ?_⟩
  intro t x hx
  have := List.of_mem_filter hx
  simpa using this

/-- Witness for C4's universal positivity part at the default size
text. -/
theorem parseSizes_spec_witness :
    (16 : Int) ∈ parseSizes ("16,32,48,128") ∧ (0 : Int) < 16 :=
  ⟨by decide, parseSizes_spec.2.2 ("16,32,48,128") 16 (by decide)⟩

/-- C10: a size entry whose trimmed text starts with a positive integer
followed by non-numeric characters is not discarded: `"12px"`
contributes 12 and `"3.5"` contributes 3, because JS `parseInt` takes
the leading-integer prefix before the positivity filter. -/
theorem parseSizes_integerPrefixKept :
    parseSizes ("12px,3.5") = [12, 3] ∧
    parseSizes ("12px") = [12] ∧
    parseSizes ("3.5") = [3] := by
  refine ⟨by decide, by decide, by decide⟩

/-- C1: for every non-empty file list and non-empty parsed size list,
a successful `processImages` run surfaces exactly
`|files| × |sizes|` `ProcessedIcon` entries, each with an edge length
from the parsed sizes and a source filename from the selected files. -/
theorem processImages_cardinality (st : DashState)
    (hfiles : st.files ≠ [])
    (hsizes : parseSizes st.sizes ≠ [])
    (hdec : ∀ f ∈ st.files, f.decodes = true) :
    (processImages st).2 = RunOutcome.success ∧
    (processImages st).1.processedIcons.length
      = st.files.length * (parseSizes st.sizes).length ∧
    ∀ icon ∈ (processImages st).1.processedIcons,
      icon.size ∈ parseSizes st.sizes ∧
      icon.originalName ∈ st.files.map SrcFile.name := by
  have hfl : st.files.length ≠ 0 := by
    simpa [List.length_eq_zero] using hfiles
  have hsl : (parseSizes st.sizes).length ≠ 0 := by
    simpa [List.length_eq_zero] using hsizes
  have H := processFiles_ok (parseSizes st.sizes)
    (st.files.length * (parseSizes st.sizes).length) st.files
    { st := { st with isProcessing := true, progress := 0 }
      icons := [], completed := 0 } hdec
  have h2 : (runOut st).2 = true := H.1
  have hres : processImages st =
      ({ (runOut st).1.st with
          processedIcons := (runOut st).1.icons, isProcessing := false },
        RunOutcome.success) := by
    rw [processImages_run st hfl hsl, h2]
    simp
  rw [hres]
  refine ⟨rfl, ?_, ?_⟩
  · have h3 : (runOut st).1.icons.length
        = 0 + st.files.length * (parseSizes st.sizes).length := H.2.1
    show (runOut st).1.icons.length = _
    omega
  · intro icon hic
    have hm : icon ∈ (runOut st).1.icons := hic
    have hmem := processFiles_icons_mem (parseSizes st.sizes)
      (st.files.length * (parseSizes st.sizes).length) st.files
      { st := { st with isProcessing := true, progress := 0 }
        icons := [], completed := 0 } icon hm
    rcases hmem with h | h
    · simp at h
    · exact ⟨h.2.1, h.1⟩

/-- Concrete state for the C1 witness: one decoding 64×64 file named
`logo.png` and size text `"16,32"`. -/
def c1State : DashState :=
  { files := [{ name := "logo.png", width := 64, height := 64,
                decodes := true }]
    sizes := "16,32", processedIcons := [], isProcessing := false
    progress := 0, nextUrl := 0, live := [], completedLog := [] }

/-- Witness for C1 at `c1State`. -/
theorem processImages_cardinality_witness :
    c1State.files ≠ [] ∧ parseSizes c1State.sizes ≠ [] ∧
    (∀ f ∈ c1State.files, f.decodes = true) ∧
    ((processImages c1State).2 = RunOutcome.success ∧
     (processImages c1State).1.processedIcons.length
       = c1State.files.length * (parseSizes c1State.sizes).length ∧
     ∀ icon ∈ (processImages c1State).1.processedIcons,
       icon.size ∈ parseSizes c1State.sizes ∧
       icon.originalName ∈ c1State.files.map SrcFile.name) :=
  ⟨by decide, by decide, by decide,
    processImages_cardinality c1State (by decide) (by decide) (by decide)⟩

/-- C7: every surfaced icon's output filename is the source's base name
(last file extension stripped) concatenated with `_{size}x{size}.png`;
base-name extraction sends `icon.png` to `icon`, leaves the
extension-free name `icon` unchanged, and is idempotent on this
example. -/
theorem processImages_filenameDerivation (st : DashState)
    (hfiles : st.files ≠ [])
    (hsizes : parseSizes st.sizes ≠ [])
    (hdec : ∀ f ∈ st.files, f.decodes = true) :
    (∀ icon ∈ (processImages st).1.processedIcons,
      icon.filename
        = stripExt icon.originalName ++ "_" ++ toString icon.size ++ "x"
          ++ toString icon.size ++ ".png") ∧
    stripExt ("icon.png") = ("icon") ∧
    stripExt ("icon") = ("icon") ∧
    stripExt (stripExt ("icon.png")) = stripExt ("icon.png") := by
  have hfl : st.files.length ≠ 0 := by
    simpa [List.length_eq_zero] using hfiles
  have hsl : (parseSizes st.sizes).length ≠ 0 := by
    simpa [List.length_eq_zero] using hsizes
  have H := processFiles_ok (parseSizes st.sizes)
    (st.files.length * (parseSizes st.sizes).length) st.files
    { st := { st with isProcessing := true, progress := 0 }
      icons := [], completed := 0 } hdec
  have h2 : (runOut st).2 = true := H.1
  have hres : processImages st =
      ({ (runOut st).1.st with
          processedIcons := (runOut st).1.icons, isProcessing := false },
        RunOutcome.success) := by
    rw [processImages_run st hfl hsl, h2]
    simp
  refine ⟨?_, by decide, by decide, by decide⟩
  rw [hres]
  intro icon hic
  have hm : icon ∈ (runOut st).1.icons := hic
  have hmem := processFiles_icons_mem (parseSizes st.sizes)
    (st.files.length * (parseSizes st.sizes).length) st.files
    { st := { st with isProcessing := true, progress := 0 }
      icons := [], completed := 0 } icon hm
  rcases hmem with h | h
  · simp at h
  · rw [h.2.2]
    simp [outputFilename, String.append_assoc]

/-- Witness for C7 at `c1State`: the derived filename property holds on
the produced icons. -/
theorem processImages_filenameDerivation_witness :
    c1State.files ≠ [] ∧
    (∀ icon ∈ (processImages c1State).1.processedIcons,
      icon.filename
        = stripExt icon.originalName ++ "_" ++ toString icon.size ++ "x"
          ++ toString icon.size ++ ".png") :=
  ⟨by decide,
    (processImages_filenameDerivation c1State (by decide) (by decide)
      (by decide)).1⟩

/-- C3: if any source image of a started run fails to decode, the whole
run is signalled as failed and no icon computed during the run is
surfaced: the visible result set is exactly what it was before the
run. -/
theorem processImages_decodeFailure (st : DashState)
    (hfiles : st.files ≠ [])
    (hsizes : parseSizes st.sizes ≠ [])
    (hfail : ∃ f ∈ st.files, f.decodes = false) :
    (processImages st).2 = RunOutcome.decodeFailed ∧
    (processImages st).1.processedIcons = st.processedIcons := by
  have hfl : st.files.length ≠ 0 := by
    simpa [List.length_eq_zero] using hfiles
  have hsl : (parseSizes st.sizes).length ≠ 0 := by
    simpa [List.length_eq_zero] using hsizes
  have h2 : (runOut st).2 = false :=
    processFiles_fail (parseSizes st.sizes)
      (st.files.length * (parseSizes st.sizes).length) st.files
      { st := { st with isProcessing := true, progress := 0 }
        icons := [], completed := 0 } hfail
  have hres : processImages st =
      ({ (runOut st).1.st with isProcessing := false },
        RunOutcome.decodeFailed) := by
    rw [processImages_run st hfl hsl, h2]
    simp
  rw [hres]
  refine ⟨rfl, ?_⟩
  have hm : (runOut st).1.st.processedIcons = st.processedIcons :=
    (processFiles_misc (parseSizes st.sizes)
      (st.files.length * (parseSizes st.sizes).length) st.files
      { st := { st with isProcessing := true, progress := 0 }
        icons := [], completed := 0 }).1
  exact hm

/-- Concrete state for the C3 witness: a prior result icon is visible,
and the single selected file fails to decode. -/
def c3State : DashState :=
  { files := [{ name := "broken.png", width := 8, height := 8,
                decodes := false }]
    sizes := "16"
    processedIcons :=
      [{ id := "old.png-9", originalName := "old.png", size := 9
         render := { canvasW := 9, canvasH := 9, scale := 1,
                     scaledWidth := 9, scaledHeight := 9, offsetX := 0,
                     offsetY := 0 }
         url := 0, filename := "old_9x9.png" }]
    isProcessing := false, progress := 100, nextUrl := 1, live := [0]
    completedLog := [1] }

/-- Witness for C3 at `c3State`. -/
theorem processImages_decodeFailure_witness :
    c3State.files ≠ [] ∧ parseSizes c3State.sizes ≠ [] ∧
    (∃ f ∈ c3State.files, f.decodes = false) ∧
    ((processImages c3State).2 = RunOutcome.decodeFailed ∧
     (processImages c3State).1.processedIcons = c3State.processedIcons) :=
  ⟨by decide, by decide, by decide,
    processImages_decodeFailure c3State (by decide) (by decide)
      (by decide)⟩

/-- C8: a run with zero selected files, or a started run whose size
text parses to no valid sizes, is rejected with a validation outcome
before any processing, leaving the whole state unchanged. -/
theorem processImages_validation (st : DashState) :
    (st.files = [] → processImages st = (st, RunOutcome.noFiles)) ∧
    (st.files ≠ [] → parseSizes st.sizes = [] →
      processImages st = (st, RunOutcome.invalidSizes)) := by
  constructor
  · intro h
    simp [processImages, h]
  · intro h1 h2
    have hfl : st.files.length ≠ 0 := by
      simpa [List.length_eq_zero] using h1
    simp [processImages, hfl, h2]

/-- Concrete empty-selection state for the C8 witness. -/
def c8EmptyState : DashState :=
  { files := [], sizes := "16,32", processedIcons := []
    isProcessing := false, progress := 0, nextUrl := 0, live := []
    completedLog := [] }

/-- Concrete no-valid-sizes state for the C8 witness. -/
def c8BadSizesState : DashState :=
  { files := [{ name := "a.png", width := 4, height := 4,
                decodes := true }]
    sizes := "0,-1", processedIcons := [], isProcessing := false
    progress := 0, nextUrl := 0, live := [], completedLog := [] }

/-- Witness for C8 at `c8EmptyState` and `c8BadSizesState`. -/
theorem processImages_validation_witness :
    processImages c8EmptyState = (c8EmptyState, RunOutcome.noFiles) ∧
    processImages c8BadSizesState
      = (c8BadSizesState, RunOutcome.invalidSizes) :=
  ⟨(processImages_validation c8EmptyState).1 rfl,
    (processImages_validation c8BadSizesState).2 (by decide) (by decide)⟩

/-- C6: during a started run the completed-operations counter is logged
as `1, 2, …, k` for some `k` bounded by the total
`|files| × |sizes|` — it increases by exactly one per completed
(image, size) pair, never decreases and never exceeds the total — and
the reported progress ratio `progressOf` is monotonically
non-decreasing in the counter and bounded by 100. -/
theorem processImages_progressAccounting (st : DashState)
    (hfiles : st.files ≠ [])
    (hsizes : parseSizes st.sizes ≠ []) :
    ∃ k, k ≤ st.files.length * (parseSizes st.sizes).length ∧
      (processImages st).1.completedLog
        = st.completedLog ++ List.range' 1 k ∧
      (∀ c ∈ List.range' 1 k,
        c ≤ st.files.length * (parseSizes st.sizes).length) ∧
      (∀ c c' : Nat, c ≤ c' →
        progressOf c (st.files.length * (parseSizes st.sizes).length)
          ≤ progressOf c'
              (st.files.length * (parseSizes st.sizes).length)) ∧
      (∀ c : Nat, c ≤ st.files.length * (parseSizes st.sizes).length →
        progressOf c (st.files.length * (parseSizes st.sizes).length)
          ≤ 100) := by
  have hfl : st.files.length ≠ 0 := by
    simpa [List.length_eq_zero] using hfiles
  have hsl : (parseSizes st.sizes).length ≠ 0 := by
    simpa [List.length_eq_zero] using hsizes
  have hT : 0 < st.files.length * (parseSizes st.sizes).length :=
    Nat.pos_of_ne_zero (Nat.mul_ne_zero hfl hsl)
  obtain ⟨k, hk, hlog⟩ := processFiles_log_prefix (parseSizes st.sizes)
    (st.files.length * (parseSizes st.sizes).length) st.files
    { st := { st with isProcessing := true, progress := 0 }
      icons := [], completed := 0 }
  have hlog2 : (runOut st).1.st.completedLog
      = st.completedLog ++ List.range' 1 k := hlog
  have hfinal : (processImages st).1.completedLog
      = (runOut st).1.st.completedLog := by
    rw [processImages_run st hfl hsl]
    by_cases hb : (runOut st).2
    · rw [hb]; simp
    · simp only [Bool.not_eq_true] at hb
      rw [hb]; simp
  refine ⟨k, hk, ?_, ?_, ?_, ?_⟩
  · rw [hfinal, hlog2]
  · intro c hc
    rw [List.mem_range'_1] at hc
    omega
  · intro c c' hcc
    exact progressOf_mono _ c c' hT hcc
  · intro c hc
    exact progressOf_le_100 _ c hT hc

/-- Witness for C6 at `c1State`. -/
theorem processImages_progressAccounting_witness :
    c1State.files ≠ [] ∧ parseSizes c1State.sizes ≠ [] ∧
    (∃ k, k ≤ c1State.files.length * (parseSizes c1State.sizes).length ∧
      (processImages c1State).1.completedLog
        = c1State.completedLog ++ List.range' 1 k ∧
      (∀ c ∈ List.range' 1 k,
        c ≤ c1State.files.length * (parseSizes c1State.sizes).length) ∧
      (∀ c c' : Nat, c ≤ c' →
        progressOf c
            (c1State.files.length * (parseSizes c1State.sizes).length)
          ≤ progressOf c'
              (c1State.files.length
                * (parseSizes c1State.sizes).length)) ∧
      (∀ c : Nat,
        c ≤ c1State.files.length * (parseSizes c1State.sizes).length →
        progressOf c
            (c1State.files.length * (parseSizes c1State.sizes).length)
          ≤ 100)) :=
  ⟨by decide, by decide,
    processImages_progressAccounting c1State (by decide) (by decide)⟩

/-- The prior result icon of the C5 scenario; its blob URL handle is
0. -/
def c5Icon : ProcessedIcon :=
  { id := "a.png-9", originalName := "a.png", size := 9
    render := { canvasW := 9, canvasH := 9, scale := 1,
                scaledWidth := 9, scaledHeight := 9, offsetX := 0,
                offsetY := 0 }
    url := 0, filename := "a_9x9.png" }

/-- Concrete state for the C5 counterexample: one prior result icon
whose blob URL handle 0 is live, one decoding file, a valid size
text. -/
def c5State : DashState :=
  { files := [{ name := "b.png", width := 8, height := 8,
                decodes := true }]
    sizes := "16"
    processedIcons := [c5Icon]
    isProcessing := false, progress := 100, nextUrl := 1, live := [0]
    completedLog := [1] }

/-- Counterexample to C5: a subsequent successful run supersedes the
prior result set, yet the prior icon's blob URL handle 0 is still live
(unreleased) afterwards: `processImages` never calls
`URL.revokeObjectURL` on the replaced `processedIcons`. -/
theorem processImages_keepsPriorHandles :
    (processImages c5State).2 = RunOutcome.success ∧
    c5State.processedIcons.map ProcessedIcon.url = [0] ∧
    (0 : Nat) ∈ c5State.live ∧
    (processImages c5State).1.processedIcons.map ProcessedIcon.url
      = [2] ∧
    (0 : Nat) ∈ (processImages c5State).1.live := by
  refine ⟨by decide, by decide, by decide, by decide, by decide⟩

/-- C5 as amended: every blob URL handle held by a surfaced icon is
released by the clear operation — after `clearAll` no handle of the
cleared result set remains live, and the visible result set is
emptied.  (A subsequent run replaces the result set without releasing
the prior handles.) -/
theorem clearAll_releasesHandles (st : DashState) (icon : ProcessedIcon)
    (h : icon ∈ st.processedIcons) :
    icon.url ∉ (clearAll st).live ∧
    (clearAll st).processedIcons = [] := by
  constructor
  · show icon.url ∉
      (st.processedIcons.foldl (fun s i => revokeUrl i.url s) st).live
    exact foldRevoke_releases st.processedIcons st icon h
  · rfl

/-- Witness for the amended C5 at `c5State`. -/
theorem clearAll_releasesHandles_witness :
    (∃ icon ∈ c5State.processedIcons, icon.url = 0) ∧
    (∀ icon ∈ c5State.processedIcons,
      icon.url ∉ (clearAll c5State).live ∧
      (clearAll c5State).processedIcons = []) :=
  ⟨⟨c5Icon, by decide, by decide⟩,
    fun icon h => clearAll_releasesHandles c5State icon h⟩

/-- Concrete state for C9: one decoding file and the duplicated size
text `"16,16"`. -/
def c9State : DashState :=
  { files := [{ name := "a.png", width := 4, height := 4,
                decodes := true }]
    sizes := "16,16", processedIcons := [], isProcessing := false
    progress := 0, nextUrl := 0, live := [], completedLog := [] }

/-- C9: target sizes are not deduplicated — size text `"16,16"` with
one source image parses to two entries and a successful run produces
one icon per entry, the two icons carrying identical derived filenames
and identical ids. -/
theorem processImages_noDeduplication :
    parseSizes c9State.sizes = [16, 16] ∧
    (processImages c9State).2 = RunOutcome.success ∧
    (processImages c9State).1.processedIcons.length = 2 ∧
    (processImages c9State).1.processedIcons.map ProcessedIcon.filename
      = ["a_16x16.png", "a_16x16.png"] ∧
    (processImages c9State).1.processedIcons.map ProcessedIcon.id
      = ["a.png-16", "a.png-16"] := by
  refine ⟨by decide, by decide, by decide, by decide, by decide⟩
